import Mathlib

/-
Verification of the transposition-table core (tt.cpp): a shallow embedding
of the entry record, the save overwrite policy, the probe / replace scan,
the generation-aging arithmetic, hashfull sampling, the multi-worker clear
partition, and the resize no-op conditions.

Machine integers are modelled as Nat (unsigned) or Int (signed), with
explicit truncation (% 2^16, % 256) exactly where the C code performs a
narrowing cast.  Constants that live in headers outside the given source
(tt.h, types.h, misc.h) are modelled from the spec and marked as such;
none of the claims depends on their exact numeric values.
-/

set_option maxRecDepth 4000

/-- Modelled from the spec: number of entries per cluster ("a small
compile-time constant, e.g. 3"; tt.h is not under src/). -/
def ClusterSize : Nat := 3

/-- Modelled from the spec: the fixed negative depth offset used when
packing a search depth into the 8-bit depth field (types.h is not under
src/).  The claims are insensitive to its exact value. -/
def DEPTH_OFFSET : Int := -6

/-- Modelled from the spec: the exact-bound enumerator of the bound type
(types.h is not under src/).  Bounds are none = 0, upper = 1, lower = 2,
exact = 3, packed in the two lowest bits of the genBound byte. -/
def BOUND_EXACT : Nat := 3

/-- Modelled from the spec: cache line size in bytes (misc.h is not under
src/); the standard value on the targeted platforms. -/
def CacheLineSize : Nat := 64

/-- Modelled from the spec: sizeof(Cluster) in bytes — ClusterSize packed
10-byte entries plus 2 bytes of padding so a cluster is 32 bytes (tt.h is
not under src/).  The claims are insensitive to its exact value. -/
def sizeofCluster : Nat := 32

/-- Truncating cast of a mathematical integer to a signed 16-bit value,
as performed by the (int16_t) casts in TTEntry::save. -/
def toInt16 (x : Int) : Int := (x + 32768) % 65536 - 32768

/-- One packed transposition-table record: key16 / move16 / depth8 /
genBound8 are unsigned fields (kept < 2^16 resp. < 2^8 on well-formed
states), value16 / eval16 are signed 16-bit fields. -/
structure TTEntry where
  key16 : Nat
  value16 : Int
  eval16 : Int
  move16 : Nat
  depth8 : Nat
  genBound8 : Nat
deriving DecidableEq

/-- TTEntry::save (tt.cpp lines 37-56) as a pure state transformer.
g is the current TT.generation8 byte.  The move is written when the
supplied move is nonzero or the stored tag differs; the remaining fields
are written when the tag differs, the depth condition
d - DEPTH_OFFSET > depth8 - 4 holds, or the bound is exact. -/
def TTEntry.save (e : TTEntry) (g : Nat) (k : Nat) (v : Int) (pv : Bool)
    (b : Nat) (d : Int) (m : Nat) (ev : Int) : TTEntry :=
  let k16 := (k >>> 48) % 65536
  let e1 := if m ≠ 0 ∨ k16 ≠ e.key16 then { e with move16 := m % 65536 } else e
  if k16 ≠ e.key16 ∨ d - DEPTH_OFFSET > (e.depth8 : Int) - 4 ∨ b = BOUND_EXACT then
    { e1 with
      key16 := k16
      value16 := toInt16 v
      eval16 := toInt16 ev
      genBound8 := g ||| ((if pv then 1 else 0) <<< 2) ||| b
      depth8 := ((d - DEPTH_OFFSET) % 256).toNat }
  else
    e1

/-- Age penalty of a stored genBound byte gb against the current
generation byte g: (263 + g - gb) & 0xF8 (tt.cpp lines 248-255).  On
well-formed states gb < 256 ≤ 263 + g, so the Nat subtraction agrees
with the C int computation. -/
def ageBits (g gb : Nat) : Nat := (263 + g - gb) &&& 248

/-- Replacement valuation of an entry: depth8 minus the age penalty,
computed in int as in the C comparison. -/
def entryValue (g : Nat) (e : TTEntry) : Int :=
  (e.depth8 : Int) - (ageBits g e.genBound8 : Int)

/-- Generation refresh performed by probe on the slot it returns:
genBound8 := generation8 | (genBound8 & 0x7) (tt.cpp line 241). -/
def refreshGB (g : Nat) (e : TTEntry) : TTEntry :=
  { e with genBound8 := g ||| (e.genBound8 &&& 7) }

/-- First scan of probe (tt.cpp lines 238-244): starting at running index
i, find the first entry whose tag is zero or equals k16, returning its
index and contents. -/
def findFirst (k16 : Nat) : Nat → List TTEntry → Option (Nat × TTEntry)
  | _, [] => none
  | i, e :: rest =>
    if e.key16 = 0 ∨ e.key16 = k16 then some (i, e) else findFirst k16 (i + 1) rest

/-- Replacement scan of probe (tt.cpp lines 247-255): fold over the
remaining entries keeping the running best (index, entry); the best is
replaced exactly when its valuation is strictly greater than the
candidate, so ties keep the earliest-scanned entry. -/
def replLoop (g : Nat) : Nat → TTEntry → Nat → List TTEntry → Nat × TTEntry
  | bi, be, _, [] => (bi, be)
  | bi, be, i, e :: rest =>
    if entryValue g be > entryValue g e
    then replLoop g i e (i + 1) rest
    else replLoop g bi be (i + 1) rest

/-- Result of a probe call: the found flag, the index of the returned
slot inside its cluster, and the cluster contents after the call. -/
structure ProbeResult where
  found : Bool
  idx : Nat
  cluster : List TTEntry
deriving DecidableEq

/-- TranspositionTable::probe (tt.cpp lines 233-258) restricted to the
cluster addressed by the key (first_entry only selects the cluster; all
claims are cluster-local).  k16 is the high 16 bits of the 64-bit key.
On the empty-or-matching path the slot is refreshed and found is the
tag-nonzero test; on the replacement path nothing is written.  A real
cluster always has ClusterSize = 3 entries, so the empty-cluster branch
is unreachable and returns an arbitrary harmless result. -/
def probe (g : Nat) (key : Nat) (c : List TTEntry) : ProbeResult :=
  match findFirst ((key >>> 48) % 65536) 0 c with
  | some (i, e) => { found := e.key16 != 0, idx := i, cluster := c.set i (refreshGB g e) }
  | none =>
    match c with
    | [] => { found := false, idx := 0, cluster := c }
    | e0 :: rest => { found := false, idx := (replLoop g 0 e0 1 rest).1, cluster := c }

/-- Per-cluster count used by hashfull (tt.cpp line 269): number of
entries whose genBound byte with the low 3 bits masked off equals the
current generation byte. -/
def countCluster (g : Nat) (cl : List TTEntry) : Nat :=
  cl.countP (fun e => e.genBound8 &&& 248 == g)

/-- TranspositionTable::hashfull (tt.cpp lines 264-272): sum the counts
of the first 1000 clusters and divide by ClusterSize.  The table is
modelled as a total map from cluster index to cluster contents; the code
reads exactly indices 0..999.  The C function only reads, so the
embedding is a pure function of the table. -/
def hashfull (g : Nat) (t : Nat → List TTEntry) : Nat :=
  (((List.range 1000).map (fun i => countCluster g (t i))).sum) / ClusterSize

/-- All-zero entry: the canonical empty state produced by memset. -/
def zeroEntry : TTEntry :=
  { key16 := 0, value16 := 0, eval16 := 0, move16 := 0, depth8 := 0, genBound8 := 0 }

/-- All-zero cluster. -/
def zeroCluster : List TTEntry := List.replicate ClusterSize zeroEntry

/-- Stride of one clearing worker: clusterCount / workerCount
(tt.cpp line 213). -/
def stride (cc n : Nat) : Nat := cc / n

/-- First cluster index zeroed by worker idx (tt.cpp line 214). -/
def workerStart (cc n idx : Nat) : Nat := stride cc n * idx

/-- Number of clusters zeroed by worker idx: the stride, except that the
last worker absorbs the remainder (tt.cpp lines 215-216). -/
def workerLen (cc n idx : Nat) : Nat :=
  if idx ≠ n - 1 then stride cc n else cc - workerStart cc n idx

/-- Effect of one worker memset: clusters in [s, s + len) become zero,
all others are untouched (tt.cpp line 218). -/
def zeroRange (s len : Nat) (t : Nat → List TTEntry) : Nat → List TTEntry :=
  fun i => if s ≤ i ∧ i < s + len then zeroCluster else t i

/-- Sequential composition of the workers with indices drawn from l.
Since the ranges are disjoint the workers commute, so this also models
the concurrent execution after the join barrier. -/
def applyWorkers (cc n : Nat) (l : List Nat) (t : Nat → List TTEntry) : Nat → List TTEntry :=
  l.foldl (fun acc idx => zeroRange (workerStart cc n idx) (workerLen cc n idx) acc) t

/-- TranspositionTable::clear (tt.cpp lines 200-224): the table state
after all n workers have finished and been joined. -/
def clearTable (cc n : Nat) (t : Nat → List TTEntry) : Nat → List TTEntry :=
  applyWorkers cc n (List.range n) t

/-- Allocation strategies taken by resize: the standard calloc path
(use_large_pages < 1), the successful huge-page VirtualAlloc path, and
the malloc fallback after a failed huge-page attempt. -/
inductive AllocStrategy
  | stdCalloc
  | hugePage
  | hugeFallback
deriving DecidableEq

/-- Number of bytes requested from the allocator for cc clusters under
each strategy (tt.cpp lines 152-153, 166-167, 174). -/
def allocRequestBytes : AllocStrategy → Nat → Nat
  | .stdCalloc, cc => cc * sizeofCluster + CacheLineSize - 1
  | .hugePage, cc => cc * sizeofCluster
  | .hugeFallback, cc => cc * sizeofCluster + CacheLineSize - 1

/-- Rounding of the raw buffer address up to the next cache-line
boundary (tt.cpp line 192); for a power-of-two line size the bit mask
(a + CacheLineSize - 1) & ~(CacheLineSize - 1) computes exactly this
quotient-times-line value. -/
def alignUp (a : Nat) : Nat := ((a + CacheLineSize - 1) / CacheLineSize) * CacheLineSize

/-- Observable state of the TranspositionTable object for resize:
the remembered last nonzero size request, the cluster count, whether the
current buffer is huge-page backed, the raw buffer address, the aligned
table address, and the table contents. -/
structure TTState where
  mbSizeLastUsed : Nat
  clusterCount : Nat
  largePagesUsed : Bool
  mem : Nat
  tableAddr : Nat
  table : Nat → List TTEntry

/-- TranspositionTable::resize (tt.cpp lines 116-194) as a state
transformer.  useLP is the desired huge-page state computed by
Try_Get_LockMemory_Privileges (use_large_pages == 1); allocOk tells
whether the huge-page VirtualAlloc would succeed; freshMem is the raw
address a (re)allocation would return.  The Bool result records whether
a reallocation (and the final clear) happened.  The two early-return
tests at lines 135-138 are together equivalent to useLP coinciding with
large_pages_used, since use_large_pages ∈ {0, 1} at that point. -/
def TTState.resize (st : TTState) (useLP allocOk : Bool) (freshMem : Nat)
    (mbSize0 : Nat) : TTState × Bool :=
  let mbSize := if mbSize0 = 0 then st.mbSizeLastUsed else mbSize0
  if mbSize = 0 then (st, false)
  else
    let newCC := mbSize * 1024 * 1024 / sizeofCluster
    if newCC = st.clusterCount ∧ useLP = st.largePagesUsed then
      ({ st with mbSizeLastUsed := mbSize }, false)
    else
      ({ mbSizeLastUsed := mbSize
         clusterCount := newCC
         largePagesUsed := useLP && allocOk
         mem := freshMem
         tableAddr := alignUp freshMem
         table := fun _ => zeroCluster }, true)

/-
Helper lemmas on the bit-level arithmetic.
-/

/-- Masking with 0xF8 clears the low 3 bits, for the operand range that
arises in the age computation. -/
lemma land248_eq : ∀ x < 528, x &&& 248 = x % 256 - x % 8 := by decide

/-- Masking a byte with 0x7 is reduction mod 8. -/
lemma land7_eq : ∀ x < 256, x &&& 7 = x % 8 := by decide

/-- Bitwise or of a generation byte (multiple of 8) with a 3-bit value
is plain addition. -/
lemma lor_low3 : ∀ g < 256, ∀ y < 8, g % 8 = 0 → g ||| y = g + y := by decide

/-
Helper lemmas on the first scan of probe.
-/

/-- When no entry of the cluster is empty or matching, the first scan
finds nothing. -/
lemma findFirst_none (k16 : Nat) (c : List TTEntry)
    (h : ∀ e ∈ c, e.key16 ≠ 0 ∧ e.key16 ≠ k16) :
    ∀ i, findFirst k16 i c = none := by
  induction c with
  | nil => intro i; rfl
  | cons e rest ih =>
    intro i
    have he := h e (List.mem_cons_self _ _)
    have hcond : ¬(e.key16 = 0 ∨ e.key16 = k16) := by
      rcases he with ⟨h1, h2⟩
      intro hc
      rcases hc with hc | hc
      · exact h1 hc
      · exact h2 hc
    simp only [findFirst, if_neg hcond]
    exact ih (fun x hx => h x (List.mem_cons_of_mem _ hx)) (i + 1)

/-- When position j holds the first empty-or-matching entry, the first
scan started at running index i returns (i + j, that entry). -/
lemma findFirst_at (k16 : Nat) (c : List TTEntry) (j : Nat) (e : TTEntry)
    (hj : c.get? j = some e) (hm : e.key16 = 0 ∨ e.key16 = k16)
    (hb : ∀ j' e', j' < j → c.get? j' = some e' → e'.key16 ≠ 0 ∧ e'.key16 ≠ k16) :
    ∀ i, findFirst k16 i c = some (i + j, e) := by
  induction c generalizing j with
  | nil => simp at hj
  | cons e0 rest ih =>
    intro i
    cases j with
    | zero =>
      simp only [List.get?_cons_zero, Option.some.injEq] at hj
      subst hj
      simp only [findFirst, if_pos hm, Nat.add_zero]
    | succ j' =>
      have h0 := hb 0 e0 (Nat.succ_pos _) (by simp)
      have hcond : ¬(e0.key16 = 0 ∨ e0.key16 = k16) := by
        rcases h0 with ⟨h1, h2⟩
        intro hc
        rcases hc with hc | hc
        · exact h1 hc
        · exact h2 hc
      simp only [findFirst, if_neg hcond]
      have hj' : rest.get? j' = some e := by simpa using hj
      have hb' : ∀ j'' e', j'' < j' → rest.get? j'' = some e' →
          e'.key16 ≠ 0 ∧ e'.key16 ≠ k16 := by
        intro j'' e' hlt hg
        exact hb (j'' + 1) e' (Nat.succ_lt_succ hlt) (by simpa using hg)
      have hres := ih j' hj' hb' (i + 1)
      have heq : i + 1 + j' = i + (j' + 1) := by omega
      rw [heq] at hres
      exact hres

/-- If the first scan returns a hit, the returned entry really sits at
the returned index (relative to the starting running index). -/
lemma findFirst_some_get (k16 : Nat) (c : List TTEntry) :
    ∀ i j e, findFirst k16 i c = some (j, e) →
      i ≤ j ∧ c.get? (j - i) = some e := by
  induction c with
  | nil => intro i j e h; simp [findFirst] at h
  | cons e0 rest ih =>
    intro i j e h
    by_cases hc : e0.key16 = 0 ∨ e0.key16 = k16
    · simp only [findFirst, if_pos hc, Option.some.injEq, Prod.mk.injEq] at h
      rcases h with ⟨h1, h2⟩
      subst h1; subst h2
      constructor
      · exact Nat.le_refl _
      · simp
    · simp only [findFirst, if_neg hc] at h
      rcases ih (i + 1) j e h with ⟨h1, h2⟩
      constructor
      · omega
      · have : j - i = (j - (i + 1)) + 1 := by omega
        rw [this]
        simpa using h2

/-
Helper lemmas on the replacement scan of probe.
-/

/-- Full characterization of the replacement scan.  c is the whole
cluster; the loop is entered with best index bi (holding entry be, a
position of c already scanned), running index i > bi, and l the suffix
of c starting at position i.  The two scan invariants say that be beats
every entry before bi strictly and every entry from bi up to i weakly.
The loop then returns the position and contents of an entry minimizing
the valuation over the whole cluster, the earliest one on ties. -/
lemma replLoop_spec (g : Nat) (c : List TTEntry) :
    ∀ (l : List TTEntry) (i bi : Nat) (be : TTEntry),
      bi < i →
      c.get? bi = some be →
      (∀ j, i ≤ j → c.get? j = l.get? (j - i)) →
      (∀ j e, j < bi → c.get? j = some e → entryValue g be < entryValue g e) →
      (∀ j e, bi ≤ j → j < i → c.get? j = some e → entryValue g be ≤ entryValue g e) →
      c.get? (replLoop g bi be i l).1 = some (replLoop g bi be i l).2 ∧
      (∀ j e, c.get? j = some e → entryValue g (replLoop g bi be i l).2 ≤ entryValue g e) ∧
      (∀ j e, j < (replLoop g bi be i l).1 → c.get? j = some e →
        entryValue g (replLoop g bi be i l).2 < entryValue g e) := by
  intro l
  induction l with
  | nil =>
    intro i bi be hbi hget hsuf hstrict hge
    simp only [replLoop]
    refine ⟨hget, ?_, ?_⟩
    · intro j e hj
      rcases Nat.lt_or_ge j i with hji | hji
      · rcases Nat.lt_or_ge j bi with hjb | hjb
        · exact le_of_lt (hstrict j e hjb hj)
        · exact hge j e hjb hji hj
      · have hn := hsuf j hji
        rw [hj] at hn
        simp at hn
    · intro j e hj hget'
      exact hstrict j e hj hget'
  | cons e rest ih =>
    intro i bi be hbi hget hsuf hstrict hge
    have hce : c.get? i = some e := by
      have := hsuf i (Nat.le_refl i)
      simpa using this
    have hsuf' : ∀ j, i + 1 ≤ j → c.get? j = rest.get? (j - (i + 1)) := by
      intro j hj
      have h1 := hsuf j (by omega)
      have h2 : j - i = (j - (i + 1)) + 1 := by omega
      rw [h2] at h1
      simpa using h1
    by_cases hcmp : entryValue g be > entryValue g e
    · have hstrict' : ∀ j e', j < i → c.get? j = some e' →
          entryValue g e < entryValue g e' := by
        intro j e' hj hg'
        rcases Nat.lt_or_ge j bi with hjb | hjb
        · exact lt_trans hcmp (hstrict j e' hjb hg')
        · exact lt_of_lt_of_le hcmp (hge j e' hjb hj hg')
      have hge' : ∀ j e', i ≤ j → j < i + 1 → c.get? j = some e' →
          entryValue g e ≤ entryValue g e' := by
        intro j e' hj1 hj2 hg'
        have hji : j = i := by omega
        subst hji
        rw [hce] at hg'
        injection hg' with h
        subst h
        exact le_refl _
      have hres := ih (i + 1) i e (by omega) hce hsuf' hstrict' hge'
      simpa only [replLoop, if_pos hcmp] using hres
    · have hge' : ∀ j e', bi ≤ j → j < i + 1 → c.get? j = some e' →
          entryValue g be ≤ entryValue g e' := by
        intro j e' hj1 hj2 hg'
        rcases Nat.lt_or_ge j i with hji | hji
        · exact hge j e' hj1 hji hg'
        · have hji' : j = i := by omega
          subst hji'
          rw [hce] at hg'
          injection hg' with h
          subst h
          exact not_lt.mp hcmp
      have hres := ih (i + 1) bi be (by omega) hget hsuf' hstrict hge'
      simpa only [replLoop, if_neg hcmp] using hres

/-
Reduction lemmas for the two probe paths.
-/

/-- Probe on a cluster with no empty or matching slot takes the
replacement path: found is false and the cluster is untouched. -/
lemma probe_nomatch (g key : Nat) (e0 : TTEntry) (rest : List TTEntry)
    (h : ∀ e ∈ e0 :: rest, e.key16 ≠ 0 ∧ e.key16 ≠ (key >>> 48) % 65536) :
    probe g key (e0 :: rest) =
      { found := false, idx := (replLoop g 0 e0 1 rest).1, cluster := e0 :: rest } := by
  have hn := findFirst_none ((key >>> 48) % 65536) (e0 :: rest) h 0
  simp only [probe, hn]

/-- Probe on a cluster whose first empty-or-matching slot is position i
stops there, refreshes the slot generation and reports found exactly
when the tag is nonzero. -/
lemma probe_match (g key : Nat) (c : List TTEntry) (i : Nat) (e : TTEntry)
    (hj : c.get? i = some e)
    (hb : ∀ j e', j < i → c.get? j = some e' →
      e'.key16 ≠ 0 ∧ e'.key16 ≠ (key >>> 48) % 65536)
    (hm : e.key16 = 0 ∨ e.key16 = (key >>> 48) % 65536) :
    probe g key c =
      { found := e.key16 != 0, idx := i, cluster := c.set i (refreshGB g e) } := by
  have hf := findFirst_at ((key >>> 48) % 65536) c i e hj hm hb 0
  rw [Nat.zero_add] at hf
  simp only [probe, hf]

/-- C1: on a cluster with no empty slot and no tag match, probe reports
found = false and returns the slot whose valuation
depth8 - ((263 + generation8 - genBound8) & 0xF8) is minimal over the
cluster, the earliest-scanned slot when several attain the minimum. -/
theorem probe_replacement_min_C1 (g key : Nat) (c : List TTEntry)
    (hne : c ≠ [])
    (hwf : ∀ e ∈ c, e.genBound8 < 256)
    (hnom : ∀ e ∈ c, e.key16 ≠ 0 ∧ e.key16 ≠ (key >>> 48) % 65536) :
    (probe g key c).found = false ∧
    ∃ emin, c.get? (probe g key c).idx = some emin ∧
      (∀ e ∈ c, entryValue g emin ≤ entryValue g e) ∧
      (∀ j e, j < (probe g key c).idx → c.get? j = some e →
        entryValue g emin < entryValue g e) := by
  match c, hne with
  | e0 :: rest, _ =>
    rw [probe_nomatch g key e0 rest hnom]
    have hsuf : ∀ j, 1 ≤ j → (e0 :: rest).get? j = rest.get? (j - 1) := by
      intro j hj
      have h1 : j = (j - 1) + 1 := by omega
      rw [h1]
      simp
    have hstrict : ∀ j e, j < 0 → (e0 :: rest).get? j = some e →
        entryValue g e0 < entryValue g e := by
      intro j e h
      exact absurd h (Nat.not_lt_zero j)
    have hge : ∀ j e, 0 ≤ j → j < 1 → (e0 :: rest).get? j = some e →
        entryValue g e0 ≤ entryValue g e := by
      intro j e h0 h1 hget
      have hj0 : j = 0 := by omega
      subst hj0
      simp only [List.get?_cons_zero, Option.some.injEq] at hget
      subst hget
      exact le_refl _
    have hspec := replLoop_spec g (e0 :: rest) rest 1 0 e0 (by omega)
      (by simp) hsuf hstrict hge
    refine ⟨rfl, (replLoop g 0 e0 1 rest).2, hspec.1, ?_, ?_⟩
    · intro e he
      rcases List.mem_iff_get?.mp he with ⟨n, hn⟩
      exact hspec.2.1 n e hn
    · exact hspec.2.2

/-- Witness for C1: a full cluster of distinct-tag entries with depths
5, 6, 7 all at the current generation; the depth-5 entry at position 0
is selected for replacement. -/
theorem probe_replacement_min_C1_witness :
    ([ { key16 := 2, value16 := 0, eval16 := 0, move16 := 0, depth8 := 5, genBound8 := 8 },
       { key16 := 3, value16 := 0, eval16 := 0, move16 := 0, depth8 := 6, genBound8 := 8 },
       { key16 := 4, value16 := 0, eval16 := 0, move16 := 0, depth8 := 7, genBound8 := 8 } ]
      ≠ ([] : List TTEntry)) ∧
    ((probe 8 (1 <<< 48)
      [ { key16 := 2, value16 := 0, eval16 := 0, move16 := 0, depth8 := 5, genBound8 := 8 },
        { key16 := 3, value16 := 0, eval16 := 0, move16 := 0, depth8 := 6, genBound8 := 8 },
        { key16 := 4, value16 := 0, eval16 := 0, move16 := 0, depth8 := 7, genBound8 := 8 } ]).idx
      = 0) ∧
    ((probe 8 (1 <<< 48)
      [ { key16 := 2, value16 := 0, eval16 := 0, move16 := 0, depth8 := 5, genBound8 := 8 },
        { key16 := 3, value16 := 0, eval16 := 0, move16 := 0, depth8 := 6, genBound8 := 8 },
        { key16 := 4, value16 := 0, eval16 := 0, move16 := 0, depth8 := 7, genBound8 := 8 } ]).found
      = false ∧
    ∃ emin,
      ([ { key16 := 2, value16 := 0, eval16 := 0, move16 := 0, depth8 := 5, genBound8 := 8 },
         { key16 := 3, value16 := 0, eval16 := 0, move16 := 0, depth8 := 6, genBound8 := 8 },
         { key16 := 4, value16 := 0, eval16 := 0, move16 := 0, depth8 := 7, genBound8 := 8 } ]
        : List TTEntry).get?
        (probe 8 (1 <<< 48)
          [ { key16 := 2, value16 := 0, eval16 := 0, move16 := 0, depth8 := 5, genBound8 := 8 },
            { key16 := 3, value16 := 0, eval16 := 0, move16 := 0, depth8 := 6, genBound8 := 8 },
            { key16 := 4, value16 := 0, eval16 := 0, move16 := 0, depth8 := 7, genBound8 := 8 } ]).idx
        = some emin ∧
      (∀ e ∈ ([ { key16 := 2, value16 := 0, eval16 := 0, move16 := 0, depth8 := 5, genBound8 := 8 },
                { key16 := 3, value16 := 0, eval16 := 0, move16 := 0, depth8 := 6, genBound8 := 8 },
                { key16 := 4, value16 := 0, eval16 := 0, move16 := 0, depth8 := 7, genBound8 := 8 } ]
               : List TTEntry),
        entryValue 8 emin ≤ entryValue 8 e) ∧
      (∀ j e, j < (probe 8 (1 <<< 48)
          [ { key16 := 2, value16 := 0, eval16 := 0, move16 := 0, depth8 := 5, genBound8 := 8 },
            { key16 := 3, value16 := 0, eval16 := 0, move16 := 0, depth8 := 6, genBound8 := 8 },
            { key16 := 4, value16 := 0, eval16 := 0, move16 := 0, depth8 := 7, genBound8 := 8 } ]).idx →
        ([ { key16 := 2, value16 := 0, eval16 := 0, move16 := 0, depth8 := 5, genBound8 := 8 },
           { key16 := 3, value16 := 0, eval16 := 0, move16 := 0, depth8 := 6, genBound8 := 8 },
           { key16 := 4, value16 := 0, eval16 := 0, move16 := 0, depth8 := 7, genBound8 := 8 } ]
          : List TTEntry).get? j = some e →
        entryValue 8 emin < entryValue 8 e)) :=
  ⟨by decide, by decide,
    probe_replacement_min_C1 8 (1 <<< 48)
      [ { key16 := 2, value16 := 0, eval16 := 0, move16 := 0, depth8 := 5, genBound8 := 8 },
        { key16 := 3, value16 := 0, eval16 := 0, move16 := 0, depth8 := 6, genBound8 := 8 },
        { key16 := 4, value16 := 0, eval16 := 0, move16 := 0, depth8 := 7, genBound8 := 8 } ]
      (by decide) (by decide) (by decide)⟩

/-- C3: probe scans the cluster in order, stops at the first entry whose
tag is zero or equals the high 16 bits of the key, returns it with
found = (tag != 0), and refreshes that entry by setting genBound8 to the
current generation combined with its previous low 3 bits — on a tag
match and on an empty slot alike. -/
theorem probe_first_match_C3 (g key : Nat) (c : List TTEntry) (i : Nat) (e : TTEntry)
    (hj : c.get? i = some e)
    (hb : ∀ j e', j < i → c.get? j = some e' →
      e'.key16 ≠ 0 ∧ e'.key16 ≠ (key >>> 48) % 65536)
    (hm : e.key16 = 0 ∨ e.key16 = (key >>> 48) % 65536) :
    probe g key c =
      { found := e.key16 != 0, idx := i,
        cluster := c.set i { e with genBound8 := g ||| (e.genBound8 &&& 7) } } :=
  probe_match g key c i e hj hb hm

/-- Witness for C3: a cluster whose slot 0 has a foreign tag and whose
slot 1 matches the probed key; probe stops at slot 1, reports found and
refreshes its generation byte from 9 (gen 8, bound 1) to 17 (gen 16,
bound 1). -/
theorem probe_first_match_C3_witness :
    (([ { key16 := 2, value16 := 0, eval16 := 0, move16 := 1, depth8 := 5, genBound8 := 9 },
        { key16 := 1, value16 := 4, eval16 := 2, move16 := 3, depth8 := 6, genBound8 := 9 },
        { key16 := 4, value16 := 0, eval16 := 0, move16 := 0, depth8 := 7, genBound8 := 9 } ]
       : List TTEntry).get? 1
      = some { key16 := 1, value16 := 4, eval16 := 2, move16 := 3, depth8 := 6, genBound8 := 9 }) ∧
    probe 16 (1 <<< 48)
      [ { key16 := 2, value16 := 0, eval16 := 0, move16 := 1, depth8 := 5, genBound8 := 9 },
        { key16 := 1, value16 := 4, eval16 := 2, move16 := 3, depth8 := 6, genBound8 := 9 },
        { key16 := 4, value16 := 0, eval16 := 0, move16 := 0, depth8 := 7, genBound8 := 9 } ] =
      { found := ((1 : Nat) != 0), idx := 1,
        cluster :=
          ([ { key16 := 2, value16 := 0, eval16 := 0, move16 := 1, depth8 := 5, genBound8 := 9 },
             { key16 := 1, value16 := 4, eval16 := 2, move16 := 3, depth8 := 6, genBound8 := 9 },
             { key16 := 4, value16 := 0, eval16 := 0, move16 := 0, depth8 := 7, genBound8 := 9 } ]
            : List TTEntry).set 1
            { key16 := 1, value16 := 4, eval16 := 2, move16 := 3, depth8 := 6,
              genBound8 := 16 ||| (9 &&& 7) } } :=
  ⟨by decide,
    probe_first_match_C3 16 (1 <<< 48)
      [ { key16 := 2, value16 := 0, eval16 := 0, move16 := 1, depth8 := 5, genBound8 := 9 },
        { key16 := 1, value16 := 4, eval16 := 2, move16 := 3, depth8 := 6, genBound8 := 9 },
        { key16 := 4, value16 := 0, eval16 := 0, move16 := 0, depth8 := 7, genBound8 := 9 } ]
      1 { key16 := 1, value16 := 4, eval16 := 2, move16 := 3, depth8 := 6, genBound8 := 9 }
      (by decide)
      (by
        intro j e' hj hg
        have hj0 : j = 0 := by omega
        subst hj0
        simp only [List.get?_cons_zero, Option.some.injEq] at hg
        subst hg
        decide)
      (by decide)⟩

/-- C10: probe can modify at most the genBound8 byte of the entry it
returns, and only on the empty-or-matching path; on the replacement path
it modifies nothing.  After a found = false probe of an empty slot, that
slot keeps key16 = 0 and all its other fields, while its generation bits
now equal the current generation — exactly the predicate counted by
hashfull. -/
theorem probe_frame_C10 :
    (∀ (g key : Nat) (c : List TTEntry),
      (probe g key c).cluster = c ∨
      ∃ i e, c.get? i = some e ∧ (probe g key c).idx = i ∧
        (probe g key c).cluster =
          c.set i { e with genBound8 := g ||| (e.genBound8 &&& 7) }) ∧
    (∀ (g key : Nat) (c : List TTEntry),
      (∀ e ∈ c, e.key16 ≠ 0 ∧ e.key16 ≠ (key >>> 48) % 65536) →
      (probe g key c).cluster = c) ∧
    (∀ (g key : Nat) (c : List TTEntry) (i : Nat) (e : TTEntry),
      g < 256 → g % 8 = 0 → e.genBound8 < 256 →
      c.get? i = some e → e.key16 = 0 →
      (∀ j e', j < i → c.get? j = some e' →
        e'.key16 ≠ 0 ∧ e'.key16 ≠ (key >>> 48) % 65536) →
      (probe g key c).found = false ∧
      ∃ e', (probe g key c).cluster.get? i = some e' ∧
        e'.key16 = 0 ∧ e'.genBound8 &&& 248 = g ∧
        e'.value16 = e.value16 ∧ e'.eval16 = e.eval16 ∧
        e'.move16 = e.move16 ∧ e'.depth8 = e.depth8) := by
  refine ⟨?_, ?_, ?_⟩
  · intro g key c
    cases hf : findFirst ((key >>> 48) % 65536) 0 c with
    | none =>
      left
      cases c with
      | nil => simp only [probe, hf]
      | cons e0 rest => simp only [probe, hf]
    | some p =>
      right
      rcases p with ⟨i, e⟩
      rcases findFirst_some_get ((key >>> 48) % 65536) c 0 i e hf with ⟨-, hg⟩
      rw [Nat.sub_zero] at hg
      refine ⟨i, e, hg, ?_, ?_⟩
      · simp only [probe, hf]
      · simp only [probe, hf, refreshGB]
  · intro g key c h
    cases c with
    | nil => rfl
    | cons e0 rest => rw [probe_nomatch g key e0 rest h]
  · intro g key c i e hg256 hg8 hwf hj hk0 hb
    rw [probe_match g key c i e hj hb (Or.inl hk0)]
    have hlen : i < c.length := by
      rcases List.get?_eq_some.mp hj with ⟨h, -⟩
      exact h
    have hset := List.get?_set_eq_of_lt (refreshGB g e) hlen
    refine ⟨by rw [hk0]; rfl, refreshGB g e, hset, hk0, ?_, rfl, rfl, rfl, rfl⟩
    have hy : e.genBound8 &&& 7 = e.genBound8 % 8 := land7_eq e.genBound8 hwf
    have hylt : e.genBound8 % 8 < 8 := Nat.mod_lt _ (by omega)
    have hor : g ||| e.genBound8 % 8 = g + e.genBound8 % 8 :=
      lor_low3 g hg256 (e.genBound8 % 8) hylt hg8
    have hmask : (g + e.genBound8 % 8) &&& 248 =
        (g + e.genBound8 % 8) % 256 - (g + e.genBound8 % 8) % 8 :=
      land248_eq (g + e.genBound8 % 8) (by omega)
    show (g ||| (e.genBound8 &&& 7)) &&& 248 = g
    rw [hy, hor, hmask]
    omega

/-- Witness for C10: probing an empty slot at position 1 (behind a
foreign-tag slot) with current generation 16 reports found = false and
leaves every field except the generation byte intact. -/
theorem probe_frame_C10_witness :
    (([ { key16 := 2, value16 := 0, eval16 := 0, move16 := 0, depth8 := 5, genBound8 := 9 },
        { key16 := 0, value16 := 7, eval16 := 8, move16 := 9, depth8 := 10, genBound8 := 11 },
        { key16 := 4, value16 := 0, eval16 := 0, move16 := 0, depth8 := 7, genBound8 := 9 } ]
       : List TTEntry).get? 1
      = some { key16 := 0, value16 := 7, eval16 := 8, move16 := 9, depth8 := 10, genBound8 := 11 }) ∧
    ((probe 16 (1 <<< 48)
      [ { key16 := 2, value16 := 0, eval16 := 0, move16 := 0, depth8 := 5, genBound8 := 9 },
        { key16 := 0, value16 := 7, eval16 := 8, move16 := 9, depth8 := 10, genBound8 := 11 },
        { key16 := 4, value16 := 0, eval16 := 0, move16 := 0, depth8 := 7, genBound8 := 9 } ]).found
       = false ∧
    ∃ e', (probe 16 (1 <<< 48)
      [ { key16 := 2, value16 := 0, eval16 := 0, move16 := 0, depth8 := 5, genBound8 := 9 },
        { key16 := 0, value16 := 7, eval16 := 8, move16 := 9, depth8 := 10, genBound8 := 11 },
        { key16 := 4, value16 := 0, eval16 := 0, move16 := 0, depth8 := 7, genBound8 := 9 } ]).cluster.get? 1
        = some e' ∧
      e'.key16 = 0 ∧ e'.genBound8 &&& 248 = 16 ∧
      e'.value16 = ({ key16 := 0, value16 := 7, eval16 := 8, move16 := 9, depth8 := 10, genBound8 := 11 } : TTEntry).value16 ∧
      e'.eval16 = ({ key16 := 0, value16 := 7, eval16 := 8, move16 := 9, depth8 := 10, genBound8 := 11 } : TTEntry).eval16 ∧
      e'.move16 = ({ key16 := 0, value16 := 7, eval16 := 8, move16 := 9, depth8 := 10, genBound8 := 11 } : TTEntry).move16 ∧
      e'.depth8 = ({ key16 := 0, value16 := 7, eval16 := 8, move16 := 9, depth8 := 10, genBound8 := 11 } : TTEntry).depth8) :=
  ⟨by decide,
    probe_frame_C10.2.2 16 (1 <<< 48)
      [ { key16 := 2, value16 := 0, eval16 := 0, move16 := 0, depth8 := 5, genBound8 := 9 },
        { key16 := 0, value16 := 7, eval16 := 8, move16 := 9, depth8 := 10, genBound8 := 11 },
        { key16 := 4, value16 := 0, eval16 := 0, move16 := 0, depth8 := 7, genBound8 := 9 } ]
      1 { key16 := 0, value16 := 7, eval16 := 8, move16 := 9, depth8 := 10, genBound8 := 11 }
      (by decide) (by decide) (by decide) (by decide) (by decide)
      (by
        intro j e' hj hg
        have hj0 : j = 0 := by omega
        subst hj0
        simp only [List.get?_cons_zero, Option.some.injEq] at hg
        subst hg
        decide)⟩

/-- Counterexample to C2 as stated: the tag matches, the bound is not
exact, and the new depth (44) does not exceed the stored depth (also 44,
since depth8 = 50 packs 44 plies under the depth offset) by 4 plies or
more, so the claim predicts that the fields keep their previous values;
yet save overwrites the value field, because the code writes already
when the new depth is within 3 plies below the stored depth. -/
theorem save_overwrite_C2_counterexample :
    (((5 <<< 48) >>> 48) % 65536
       = ({ key16 := 5, value16 := 100, eval16 := 0, move16 := 0, depth8 := 50, genBound8 := 8 } : TTEntry).key16) ∧
    ¬((44 : Int) ≥ ((50 : Int) + DEPTH_OFFSET) + 4) ∧
    (1 : Nat) ≠ BOUND_EXACT ∧
    (TTEntry.save
        { key16 := 5, value16 := 100, eval16 := 0, move16 := 0, depth8 := 50, genBound8 := 8 }
        8 (5 <<< 48) 7 false 1 44 0 0).value16
      ≠ ({ key16 := 5, value16 := 100, eval16 := 0, move16 := 0, depth8 := 50, genBound8 := 8 } : TTEntry).value16 := by
  decide

/-- C2 (amended): save overwrites key16, value16, eval16, genBound8 and
depth8 if and only if (a) the stored tag differs from the high 16 bits
of the key, or (b) the new depth is greater than the stored depth minus
4 plies — i.e. it may be up to 3 plies shallower, rather than the
4-or-more-plies-deeper margin of the original claim — or (c) the bound
is exact; otherwise those fields keep their previous values. -/
theorem save_overwrite_C2_amended (e : TTEntry) (g k : Nat) (v : Int) (pv : Bool)
    (b : Nat) (d : Int) (m : Nat) (ev : Int) :
    ((e.save g k v pv b d m ev).key16 =
      if (k >>> 48) % 65536 ≠ e.key16 ∨ d - DEPTH_OFFSET > (e.depth8 : Int) - 4 ∨ b = BOUND_EXACT
      then (k >>> 48) % 65536 else e.key16) ∧
    ((e.save g k v pv b d m ev).value16 =
      if (k >>> 48) % 65536 ≠ e.key16 ∨ d - DEPTH_OFFSET > (e.depth8 : Int) - 4 ∨ b = BOUND_EXACT
      then toInt16 v else e.value16) ∧
    ((e.save g k v pv b d m ev).eval16 =
      if (k >>> 48) % 65536 ≠ e.key16 ∨ d - DEPTH_OFFSET > (e.depth8 : Int) - 4 ∨ b = BOUND_EXACT
      then toInt16 ev else e.eval16) ∧
    ((e.save g k v pv b d m ev).genBound8 =
      if (k >>> 48) % 65536 ≠ e.key16 ∨ d - DEPTH_OFFSET > (e.depth8 : Int) - 4 ∨ b = BOUND_EXACT
      then g ||| ((if pv then 1 else 0) <<< 2) ||| b else e.genBound8) ∧
    ((e.save g k v pv b d m ev).depth8 =
      if (k >>> 48) % 65536 ≠ e.key16 ∨ d - DEPTH_OFFSET > (e.depth8 : Int) - 4 ∨ b = BOUND_EXACT
      then ((d - DEPTH_OFFSET) % 256).toNat else e.depth8) := by
  by_cases hcond : (k >>> 48) % 65536 ≠ e.key16 ∨
      d - DEPTH_OFFSET > (e.depth8 : Int) - 4 ∨ b = BOUND_EXACT
  · by_cases hm : m ≠ 0 ∨ (k >>> 48) % 65536 ≠ e.key16
    · simp only [TTEntry.save, if_pos hcond, if_pos hm]
      exact ⟨trivial, trivial, trivial, trivial, trivial⟩
    · simp only [TTEntry.save, if_pos hcond, if_neg hm]
      exact ⟨trivial, trivial, trivial, trivial, trivial⟩
  · by_cases hm : m ≠ 0 ∨ (k >>> 48) % 65536 ≠ e.key16
    · simp only [TTEntry.save, if_neg hcond, if_pos hm]
      exact ⟨trivial, trivial, trivial, trivial, trivial⟩
    · simp only [TTEntry.save, if_neg hcond, if_neg hm]
      exact ⟨trivial, trivial, trivial, trivial, trivial⟩

/-- C5: saving over an entry with the same tag, a null move, a non-exact
bound and a depth that misses the overwrite margin leaves the entry
completely unchanged (in particular the stored move is retained);
conversely the move field is overwritten whenever the supplied move is
nonzero or the stored tag differs. -/
theorem save_move_preserve_C5 (e : TTEntry) (g k : Nat) (v : Int) (pv : Bool)
    (b : Nat) (d : Int) (m : Nat) (ev : Int) :
    (((k >>> 48) % 65536 = e.key16 → ¬(d - DEPTH_OFFSET > (e.depth8 : Int) - 4) →
       b ≠ BOUND_EXACT → e.save g k v pv b d 0 ev = e) ∧
     ((m ≠ 0 ∨ (k >>> 48) % 65536 ≠ e.key16) →
       (e.save g k v pv b d m ev).move16 = m % 65536)) := by
  constructor
  · intro htag hmargin hbound
    have hcond : ¬((k >>> 48) % 65536 ≠ e.key16 ∨
        d - DEPTH_OFFSET > (e.depth8 : Int) - 4 ∨ b = BOUND_EXACT) := by
      push_neg
      exact ⟨htag, not_lt.mp hmargin, hbound⟩
    have hm : ¬((0 : Nat) ≠ 0 ∨ (k >>> 48) % 65536 ≠ e.key16) := by
      push_neg
      exact ⟨rfl, htag⟩
    simp only [TTEntry.save, if_neg hm, if_neg hcond]
  · intro hm
    by_cases hcond : (k >>> 48) % 65536 ≠ e.key16 ∨
        d - DEPTH_OFFSET > (e.depth8 : Int) - 4 ∨ b = BOUND_EXACT
    · simp only [TTEntry.save, if_pos hcond, if_pos hm]
    · simp only [TTEntry.save, if_neg hcond, if_pos hm]

/-- Witness for C5: a second save on the same tag with a null move, an
upper bound and a 4-plies-shallower depth changes nothing, keeping the
stored move 77; and a save with nonzero move 33 writes that move. -/
theorem save_move_preserve_C5_witness :
    ((((5 <<< 48) >>> 48) % 65536
        = ({ key16 := 5, value16 := 100, eval16 := 12, move16 := 77, depth8 := 50, genBound8 := 9 } : TTEntry).key16) ∧
     ¬((40 : Int) - DEPTH_OFFSET >
        ((({ key16 := 5, value16 := 100, eval16 := 12, move16 := 77, depth8 := 50, genBound8 := 9 } : TTEntry).depth8 : Int)) - 4) ∧
     (1 : Nat) ≠ BOUND_EXACT) ∧
    (TTEntry.save
       { key16 := 5, value16 := 100, eval16 := 12, move16 := 77, depth8 := 50, genBound8 := 9 }
       8 (5 <<< 48) 3 false 1 40 0 0
      = { key16 := 5, value16 := 100, eval16 := 12, move16 := 77, depth8 := 50, genBound8 := 9 }) ∧
    ((TTEntry.save
       { key16 := 5, value16 := 100, eval16 := 12, move16 := 77, depth8 := 50, genBound8 := 9 }
       8 (5 <<< 48) 3 false 1 40 33 0).move16 = 33 % 65536) :=
  ⟨⟨by decide, by decide, by decide⟩,
   (save_move_preserve_C5
      { key16 := 5, value16 := 100, eval16 := 12, move16 := 77, depth8 := 50, genBound8 := 9 }
      8 (5 <<< 48) 3 false 1 40 0 0).1 (by decide) (by decide) (by decide),
   (save_move_preserve_C5
      { key16 := 5, value16 := 100, eval16 := 12, move16 := 77, depth8 := 50, genBound8 := 9 }
      8 (5 <<< 48) 3 false 1 40 33 0).2 (Or.inl (by decide))⟩

/-- C4: for a current generation byte g that is a multiple of 8 and a
stored byte B + f with B a multiple of 8 and f < 8, the age penalty
(263 + g - (B + f)) & 0xF8 equals the cyclic mod-256 difference
(g - B) mod 256 — independent of the low 3 flag bits and correct across
one wraparound of the 8-bit generation counter. -/
theorem age_penalty_C4 (g B f : Nat)
    (hg : g < 256) (hg8 : g % 8 = 0) (hB : B < 256) (hB8 : B % 8 = 0) (hf : f < 8) :
    (ageBits g (B + f) : Int) = ((g : Int) - (B : Int)) % 256 := by
  have hx : 263 + g - (B + f) < 528 := by omega
  have hmask := land248_eq (263 + g - (B + f)) hx
  have hval : ageBits g (B + f) =
      (263 + g - (B + f)) % 256 - (263 + g - (B + f)) % 8 := by
    unfold ageBits
    exact hmask
  rw [hval]
  have h1 : (263 + g - (B + f)) % 256 = (7 + g + 256 - B - f) % 256 := by
    congr 1
    omega
  omega

/-- Witness for C4: the wraparound boundary from the claim — current
generation 0 against an entry written at generation 248 with flag bits 5
gives the cyclic age penalty 8. -/
theorem age_penalty_C4_witness :
    ((0 : Nat) < 256 ∧ (0 : Nat) % 8 = 0 ∧ (248 : Nat) < 256 ∧
      (248 : Nat) % 8 = 0 ∧ (5 : Nat) < 8) ∧
    (ageBits 0 (248 + 5) : Int) = ((0 : Int) - (248 : Int)) % 256 :=
  ⟨⟨by decide, by decide, by decide, by decide, by decide⟩,
   age_penalty_C4 0 248 5 (by decide) (by decide) (by decide) (by decide) (by decide)⟩

/-- C7: hashfull depends only on the first 1000 clusters of the table,
its result never exceeds 1000 when the sampled clusters have the proper
ClusterSize entries, and it equals the number of sampled entries whose
masked generation bits match the current generation, divided by
ClusterSize.  The embedding of the C function is pure, reflecting that
hashfull only reads the table. -/
theorem hashfull_C7 :
    (∀ (g : Nat) (t1 t2 : Nat → List TTEntry),
      (∀ i < 1000, t1 i = t2 i) → hashfull g t1 = hashfull g t2) ∧
    (∀ (g : Nat) (t : Nat → List TTEntry),
      (∀ i < 1000, (t i).length = ClusterSize) → hashfull g t ≤ 1000) ∧
    (∀ (g : Nat) (t : Nat → List TTEntry),
      hashfull g t =
        (((List.range 1000).map (fun i =>
          (t i).countP (fun e => e.genBound8 &&& 248 == g))).sum) / ClusterSize) := by
  refine ⟨?_, ?_, fun g t => rfl⟩
  · intro g t1 t2 h
    have hm : (List.range 1000).map (fun i => countCluster g (t1 i)) =
        (List.range 1000).map (fun i => countCluster g (t2 i)) :=
      List.map_congr_left (fun i hi => by rw [h i (List.mem_range.mp hi)])
    unfold hashfull
    rw [hm]
  · intro g t hlen
    have hcs : ClusterSize = 3 := rfl
    have hbound : ∀ x ∈ (List.range 1000).map (fun i => countCluster g (t i)), x ≤ 3 := by
      intro x hx
      rcases List.mem_map.mp hx with ⟨i, hi, rfl⟩
      have h1 : countCluster g (t i) ≤ (t i).length := List.countP_le_length _
      have h2 := hlen i (List.mem_range.mp hi)
      omega
    have hsum := List.sum_le_card_nsmul _ 3 hbound
    rw [List.length_map, List.length_range] at hsum
    have hs : ((List.range 1000).map (fun i => countCluster g (t i))).sum ≤ 3000 := by
      simpa using hsum
    unfold hashfull
    rw [hcs]
    omega

/-- Witness for C7: on a table made of well-formed (3-entry) clusters
the occupancy estimate is at most 1000. -/
theorem hashfull_C7_witness :
    (∀ i < 1000, ((fun _ => zeroCluster) i : List TTEntry).length = ClusterSize) ∧
    hashfull 8 (fun _ => zeroCluster) ≤ 1000 :=
  ⟨by decide, hashfull_C7.2.1 8 (fun _ => zeroCluster) (by decide)⟩

/-
Helper lemmas on the parallel clear.
-/

/-- A cluster index outside every worker range is untouched. -/
lemma applyWorkers_untouched (cc n : Nat) (l : List Nat) (i : Nat) :
    ∀ t, (∀ idx ∈ l, ¬(workerStart cc n idx ≤ i ∧
        i < workerStart cc n idx + workerLen cc n idx)) →
      applyWorkers cc n l t i = t i := by
  induction l with
  | nil => intro t _; rfl
  | cons idx rest ih =>
    intro t h
    have h0 := h idx (List.mem_cons_self _ _)
    show applyWorkers cc n rest
      (zeroRange (workerStart cc n idx) (workerLen cc n idx) t) i = t i
    rw [ih _ (fun j hj => h j (List.mem_cons_of_mem _ hj))]
    unfold zeroRange
    rw [if_neg h0]

/-- Once a cluster is zero it stays zero through further workers. -/
lemma applyWorkers_zero_preserved (cc n : Nat) (l : List Nat) (i : Nat) :
    ∀ t, t i = zeroCluster → applyWorkers cc n l t i = zeroCluster := by
  induction l with
  | nil => intro t h; exact h
  | cons idx rest ih =>
    intro t h
    show applyWorkers cc n rest
      (zeroRange (workerStart cc n idx) (workerLen cc n idx) t) i = zeroCluster
    apply ih
    unfold zeroRange
    by_cases hc : workerStart cc n idx ≤ i ∧ i < workerStart cc n idx + workerLen cc n idx
    · rw [if_pos hc]
    · rw [if_neg hc]
      exact h

/-- A cluster index inside some worker range ends up zero. -/
lemma applyWorkers_covered (cc n : Nat) (l : List Nat) (i : Nat) :
    ∀ t, (∃ idx ∈ l, workerStart cc n idx ≤ i ∧
        i < workerStart cc n idx + workerLen cc n idx) →
      applyWorkers cc n l t i = zeroCluster := by
  induction l with
  | nil =>
    intro t h
    rcases h with ⟨idx, hmem, -⟩
    simp at hmem
  | cons idx0 rest ih =>
    intro t h
    rcases h with ⟨j, hj, hr⟩
    show applyWorkers cc n rest
      (zeroRange (workerStart cc n idx0) (workerLen cc n idx0) t) i = zeroCluster
    rcases List.mem_cons.mp hj with hj0 | hj'
    · subst hj0
      apply applyWorkers_zero_preserved
      unfold zeroRange
      rw [if_pos hr]
    · exact ih _ ⟨j, hj', hr⟩

/-- Every cluster index below clusterCount lies in some worker range. -/
lemma worker_cover (cc n : Nat) (hn : 1 ≤ n) (c : Nat) (hc : c < cc) :
    ∃ idx, idx < n ∧ workerStart cc n idx ≤ c ∧
      c < workerStart cc n idx + workerLen cc n idx := by
  by_cases hcase : c < stride cc n * (n - 1)
  · have hs : 0 < stride cc n := by
      rcases Nat.eq_zero_or_pos (stride cc n) with h0 | h0
      · rw [h0] at hcase
        simp at hcase
      · exact h0
    have hidx : c / stride cc n < n - 1 := by
      rw [Nat.div_lt_iff_lt_mul hs]
      rw [Nat.mul_comm] at hcase
      exact hcase
    have hne : c / stride cc n ≠ n - 1 := Nat.ne_of_lt hidx
    refine ⟨c / stride cc n, by omega, ?_, ?_⟩
    · show stride cc n * (c / stride cc n) ≤ c
      rw [Nat.mul_comm]
      exact Nat.div_mul_le_self c (stride cc n)
    · show c < stride cc n * (c / stride cc n) + workerLen cc n (c / stride cc n)
      have hlen : workerLen cc n (c / stride cc n) = stride cc n := if_pos hne
      rw [hlen]
      conv_lhs => rw [← Nat.div_add_mod c (stride cc n)]
      exact Nat.add_lt_add_left (Nat.mod_lt c hs) _
  · have hstart : workerStart cc n (n - 1) = stride cc n * (n - 1) := rfl
    have hle : workerStart cc n (n - 1) ≤ c := by
      rw [hstart]
      omega
    have hlen : workerLen cc n (n - 1) = cc - workerStart cc n (n - 1) :=
      if_neg (by simp)
    refine ⟨n - 1, by omega, hle, ?_⟩
    rw [hlen, Nat.add_sub_cancel' (le_trans hle (Nat.le_of_lt hc))]
    exact hc

/-- The worker ranges are pairwise disjoint. -/
lemma worker_disjoint (cc n : Nat) (c i1 i2 : Nat) (h1n : i1 < n) (h2n : i2 < n)
    (h1 : workerStart cc n i1 ≤ c ∧ c < workerStart cc n i1 + workerLen cc n i1)
    (h2 : workerStart cc n i2 ≤ c ∧ c < workerStart cc n i2 + workerLen cc n i2) :
    i1 = i2 := by
  by_contra hne
  wlog hlt : i1 < i2 generalizing i1 i2
  · exact this i2 i1 h2n h1n h2 h1 (Ne.symm hne) (by omega)
  have hi1 : i1 ≠ n - 1 := by omega
  have hlen1 : workerLen cc n i1 = stride cc n := if_pos hi1
  have hkey : workerStart cc n i1 + stride cc n ≤ workerStart cc n i2 := by
    show stride cc n * i1 + stride cc n ≤ stride cc n * i2
    have h12 : i1 + 1 ≤ i2 := hlt
    calc stride cc n * i1 + stride cc n = stride cc n * (i1 + 1) := by ring
    _ ≤ stride cc n * i2 := Nat.mul_le_mul_left _ h12
  rw [hlen1] at h1
  omega

/-- Above clusterCount nothing is written: every worker range ends at or
below clusterCount. -/
lemma worker_range_below (cc n idx : Nat) (hidx : idx < n) :
    workerStart cc n idx + workerLen cc n idx ≤ cc := by
  by_cases hne : idx ≠ n - 1
  · have hlen : workerLen cc n idx = stride cc n := if_pos hne
    rw [hlen]
    show stride cc n * idx + stride cc n ≤ cc
    calc stride cc n * idx + stride cc n = stride cc n * (idx + 1) := by ring
    _ ≤ stride cc n * n := Nat.mul_le_mul_left _ (by omega)
    _ = cc / n * n := rfl
    _ ≤ cc := Nat.div_mul_le_self cc n
  · have hlen : workerLen cc n idx = cc - workerStart cc n idx := if_neg hne
    have hs : workerStart cc n idx ≤ cc := by
      show stride cc n * idx ≤ cc
      calc stride cc n * idx ≤ stride cc n * n := Nat.mul_le_mul_left _ (Nat.le_of_lt hidx)
      _ = cc / n * n := rfl
      _ ≤ cc := Nat.div_mul_le_self cc n
    rw [hlen]
    omega

/-- After clear, every cluster below clusterCount is zero. -/
lemma clearTable_eq_zero (cc n : Nat) (hn : 1 ≤ n) (t : Nat → List TTEntry)
    (i : Nat) (hi : i < cc) : clearTable cc n t i = zeroCluster := by
  rcases worker_cover cc n hn i hi with ⟨idx, hidx, hr⟩
  exact applyWorkers_covered cc n (List.range n) i t
    ⟨idx, List.mem_range.mpr hidx, hr⟩

/-- Clear never writes outside the clusterCount clusters. -/
lemma clearTable_eq_self (cc n : Nat) (t : Nat → List TTEntry)
    (i : Nat) (hi : cc ≤ i) : clearTable cc n t i = t i := by
  apply applyWorkers_untouched
  intro idx hidx hr
  have hb := worker_range_below cc n idx (List.mem_range.mp hidx)
  omega

/-- A zeroed cluster contributes nothing to hashfull when the current
generation byte is nonzero. -/
lemma countCluster_zeroCluster (g : Nat) (hg : g ≠ 0) :
    countCluster g zeroCluster = 0 := by
  unfold countCluster zeroCluster
  apply List.countP_eq_zero.mpr
  intro a ha
  rw [List.eq_of_mem_replicate ha]
  show ¬(zeroEntry.genBound8 &&& 248 == g) = true
  simp [zeroEntry]
  omega

/-- After a clear covering the sampled prefix, hashfull reports zero for
any nonzero current generation. -/
lemma hashfull_clearTable_eq_zero (g cc n : Nat) (t : Nat → List TTEntry)
    (hn : 1 ≤ n) (hg : g ≠ 0) (hcc : 1000 ≤ cc) :
    hashfull g (clearTable cc n t) = 0 := by
  unfold hashfull
  have hz : ((List.range 1000).map
      (fun i => countCluster g (clearTable cc n t i))).sum = 0 := by
    apply List.sum_eq_zero
    intro x hx
    rcases List.mem_map.mp hx with ⟨i, hi, rfl⟩
    rw [clearTable_eq_zero cc n hn t i (by have := List.mem_range.mp hi; omega)]
    exact countCluster_zeroCluster g hg
  rw [hz]
  rfl

/-- At generation byte zero, the zeroed entries themselves satisfy the
hashfull predicate, so a freshly cleared table reports full. -/
lemma hashfull_clearTable_gen0 (t : Nat → List TTEntry) :
    hashfull 0 (clearTable 1000 1 t) = 1000 := by
  unfold hashfull
  have hmap : (List.range 1000).map (fun i => countCluster 0 (clearTable 1000 1 t i)) =
      (List.range 1000).map (fun _ => 3) := by
    apply List.map_congr_left
    intro i hi
    rw [clearTable_eq_zero 1000 1 (by omega) t i (List.mem_range.mp hi)]
    rfl
  rw [hmap, List.map_const', List.sum_replicate]
  simp [ClusterSize]

/-- Counterexample to C8 as stated: with current generation byte 0 (the
initial value of an 8-bit counter, revisited after every 32 generation
bumps), an immediate hashfull after clear returns 1000, not 0, because a
zeroed genBound byte masked with 0xF8 equals generation 0. -/
theorem clear_C8_counterexample :
    hashfull 0 (clearTable 1000 1 (fun _ => zeroCluster)) = 1000 ∧
    hashfull 0 (clearTable 1000 1 (fun _ => zeroCluster)) ≠ 0 := by
  have h := hashfull_clearTable_gen0 (fun _ => zeroCluster)
  exact ⟨h, by omega⟩

/-- C8 (amended): clear partitions the clusterCount clusters among the n
workers into contiguous, pairwise-disjoint ranges that cover every
cluster — each worker zeroes a stride of clusterCount / n clusters from
stride * idx on, the last worker absorbing the remainder — and after all
workers have been joined every cluster of the table is zero (and indices
past clusterCount are untouched).  An immediate hashfull then returns 0
for every nonzero current generation byte; at generation byte 0 the
zeroed entries are themselves counted as current (see the
counterexample), which is the one correction to the claim. -/
theorem clear_C8_amended (cc n : Nat) (t : Nat → List TTEntry) (hn : 1 ≤ n) :
    (∀ c, c < cc → ∃! idx, idx < n ∧ workerStart cc n idx ≤ c ∧
        c < workerStart cc n idx + workerLen cc n idx) ∧
    (∀ i, i < cc → clearTable cc n t i = zeroCluster) ∧
    (∀ i, cc ≤ i → clearTable cc n t i = t i) ∧
    (∀ g, g ≠ 0 → 1000 ≤ cc → hashfull g (clearTable cc n t) = 0) := by
  refine ⟨?_, ?_, ?_, ?_⟩
  · intro c hc
    rcases worker_cover cc n hn c hc with ⟨idx, hidx, hr⟩
    refine ⟨idx, ⟨hidx, hr⟩, ?_⟩
    intro y hy
    exact worker_disjoint cc n c y idx hy.1 hidx ⟨hy.2.1, hy.2.2⟩ hr
  · intro i hi
    exact clearTable_eq_zero cc n hn t i hi
  · intro i hi
    exact clearTable_eq_self cc n t i hi
  · intro g hg hcc
    exact hashfull_clearTable_eq_zero g cc n t hn hg hcc

/-- Witness for C8: a 2500-cluster table cleared by 3 workers — worker
strides partition the clusters, the table is zero everywhere below 2500,
and hashfull at generation 8 reports 0. -/
theorem clear_C8_amended_witness :
    (1 ≤ 3) ∧
    ((∀ c, c < 2500 → ∃! idx, idx < 3 ∧ workerStart 2500 3 idx ≤ c ∧
        c < workerStart 2500 3 idx + workerLen 2500 3 idx) ∧
     (∀ i, i < 2500 → clearTable 2500 3 (fun _ => zeroCluster) i = zeroCluster) ∧
     (∀ i, 2500 ≤ i → clearTable 2500 3 (fun _ => zeroCluster) i =
        (fun _ => zeroCluster) i) ∧
     (∀ g, g ≠ 0 → 1000 ≤ 2500 →
        hashfull g (clearTable 2500 3 (fun _ => zeroCluster)) = 0)) :=
  ⟨by decide, clear_C8_amended 2500 3 (fun _ => zeroCluster) (by decide)⟩

/-- Counterexample to C6 as stated: on the huge-page allocation path the
request is exactly clusterCount * sizeof(Cluster) bytes — it does not
include the CacheLineSize - 1 padding bytes the claim asserts for every
allocation strategy. -/
theorem alloc_padding_C6_counterexample :
    allocRequestBytes AllocStrategy.hugePage 1 = 1 * sizeofCluster ∧
    allocRequestBytes AllocStrategy.hugePage 1 ≠
      1 * sizeofCluster + (CacheLineSize - 1) := by
  decide

/-- C6 (amended): on the two standard allocation paths (the calloc path
and the malloc fallback after a failed huge-page attempt) the request
includes CacheLineSize - 1 padding bytes beyond
clusterCount * sizeof(Cluster), which suffices for the table to keep
clusterCount * sizeof(Cluster) usable bytes inside the allocation after
the address is rounded up to the next cache-line boundary.  The
huge-page path requests exactly clusterCount * sizeof(Cluster) bytes
with no padding; there the rounding is a no-op only because the OS
returns page-aligned (hence cache-line-aligned) memory. -/
theorem alloc_padding_C6_amended (cc a : Nat) :
    (allocRequestBytes AllocStrategy.stdCalloc cc =
      cc * sizeofCluster + (CacheLineSize - 1)) ∧
    (allocRequestBytes AllocStrategy.hugeFallback cc =
      cc * sizeofCluster + (CacheLineSize - 1)) ∧
    (alignUp a + cc * sizeofCluster ≤
      a + allocRequestBytes AllocStrategy.stdCalloc cc) ∧
    (allocRequestBytes AllocStrategy.hugePage cc = cc * sizeofCluster) ∧
    (a % CacheLineSize = 0 → alignUp a = a) := by
  have halign : alignUp a ≤ a + (CacheLineSize - 1) := by
    unfold alignUp CacheLineSize
    have := Nat.div_mul_le_self (a + 64 - 1) 64
    omega
  refine ⟨rfl, rfl, ?_, rfl, ?_⟩
  · show alignUp a + cc * sizeofCluster ≤ a + (cc * sizeofCluster + (CacheLineSize - 1))
    omega
  · intro hmod
    unfold alignUp CacheLineSize at *
    omega

/-- Witness for C6: an address already cache-line aligned is unchanged
by the rounding, and the padded standard request leaves room for one
cluster after alignment of an arbitrary address. -/
theorem alloc_padding_C6_amended_witness :
    ((128 : Nat) % CacheLineSize = 0 ∧ alignUp 128 = 128) ∧
    alignUp 100 + 1 * sizeofCluster ≤ 100 + allocRequestBytes AllocStrategy.stdCalloc 1 :=
  ⟨⟨by decide, (alloc_padding_C6_amended 1 128).2.2.2.2 (by decide)⟩,
   (alloc_padding_C6_amended 1 100).2.2.1⟩

/-- C9: resize is a no-op exactly in the stated cases — a zero request
with no remembered size returns with the state unchanged; a zero request
otherwise behaves as a resize to the remembered size; and a request
whose computed cluster count equals the current one while the desired
huge-page state matches the current one returns without reallocating or
clearing, leaving the buffer address, the table contents and every other
field except the remembered size untouched.  In all remaining cases a
reallocation and clear do happen. -/
theorem resize_noop_C9 (st : TTState) (useLP allocOk : Bool) (freshMem mb : Nat) :
    (st.mbSizeLastUsed = 0 → st.resize useLP allocOk freshMem 0 = (st, false)) ∧
    (st.resize useLP allocOk freshMem 0 =
      st.resize useLP allocOk freshMem st.mbSizeLastUsed) ∧
    (mb ≠ 0 → mb * 1024 * 1024 / sizeofCluster = st.clusterCount →
      useLP = st.largePagesUsed →
      st.resize useLP allocOk freshMem mb =
        ({ st with mbSizeLastUsed := mb }, false)) ∧
    (mb ≠ 0 → ¬(mb * 1024 * 1024 / sizeofCluster = st.clusterCount ∧
        useLP = st.largePagesUsed) →
      (st.resize useLP allocOk freshMem mb).2 = true) := by
  refine ⟨?_, ?_, ?_, ?_⟩
  · intro h0
    unfold TTState.resize
    rw [if_pos rfl]
    rw [h0]
    rfl
  · by_cases h0 : st.mbSizeLastUsed = 0
    · simp [TTState.resize, h0]
    · simp [TTState.resize, h0]
  · intro hmb hcc hlp
    unfold TTState.resize
    rw [if_neg hmb, if_neg hmb, if_pos ⟨hcc, hlp⟩]
  · intro hmb hcond
    unfold TTState.resize
    rw [if_neg hmb, if_neg hmb, if_neg hcond]

/-- Witness for C9: a never-sized table ignores resize(0) entirely, and
a table already at 4 MB (131072 clusters of 32 bytes) with matching
huge-page state is left untouched by another resize(4). -/
theorem resize_noop_C9_witness :
    (({ mbSizeLastUsed := 0, clusterCount := 0, largePagesUsed := false, mem := 0,
        tableAddr := 0, table := fun _ => zeroCluster } : TTState).mbSizeLastUsed = 0) ∧
    (TTState.resize
      { mbSizeLastUsed := 0, clusterCount := 0, largePagesUsed := false, mem := 0,
        tableAddr := 0, table := fun _ => zeroCluster } false false 7 0 =
      ({ mbSizeLastUsed := 0, clusterCount := 0, largePagesUsed := false, mem := 0,
         tableAddr := 0, table := fun _ => zeroCluster }, false)) ∧
    ((4 : Nat) ≠ 0 ∧
     4 * 1024 * 1024 / sizeofCluster =
       ({ mbSizeLastUsed := 4, clusterCount := 131072, largePagesUsed := false, mem := 55,
          tableAddr := 64, table := fun _ => zeroCluster } : TTState).clusterCount ∧
     false = ({ mbSizeLastUsed := 4, clusterCount := 131072, largePagesUsed := false,
                mem := 55, tableAddr := 64,
                table := fun _ => zeroCluster } : TTState).largePagesUsed) ∧
    (TTState.resize
      { mbSizeLastUsed := 4, clusterCount := 131072, largePagesUsed := false, mem := 55,
        tableAddr := 64, table := fun _ => zeroCluster } false true 7 4 =
      ({ mbSizeLastUsed := 4, clusterCount := 131072, largePagesUsed := false, mem := 55,
         tableAddr := 64, table := fun _ => zeroCluster }, false)) :=
  ⟨rfl,
   (resize_noop_C9
      { mbSizeLastUsed := 0, clusterCount := 0, largePagesUsed := false, mem := 0,
        tableAddr := 0, table := fun _ => zeroCluster } false false 7 0).1 rfl,
   ⟨by decide, by decide, rfl⟩,
   (resize_noop_C9
      { mbSizeLastUsed := 4, clusterCount := 131072, largePagesUsed := false, mem := 55,
        tableAddr := 64, table := fun _ => zeroCluster } false true 7 4).2.2.1
     (by decide) (by decide) rfl⟩
